import Mathlib

/-!
Shallow embedding of the macaroons account/root-key store
(`macaroons/store.go` and the account storage file) of the repository.

Bytes are modelled as `Nat` (each byte `< 256`), byte strings as
`List Nat`.  Machine integers are `Nat`/`Int` with explicit reduction
modulo `2^w` where the Go code truncates.  Fallible Go functions
(returning `error`) are modelled with `Except GoError`.
-/

namespace Lnd

/-- The distinguishable error values the modelled code can return.
`malformed` is `ErrMalformed`, `accNotFound` is `ErrAccNotFound`,
`alreadyUnlocked`/`storeLocked`/`passwordRequired`/`encKeyNotFound` are the
corresponding `store.go` errors, `invalidPassword`/`decryptionFailed` come
from the snacl collaborator, `rootKeyIdNotFound` is the ad-hoc
`fmt.Errorf` in `RootKeyStorage.Get`, and the `time*` errors are the
errors of Go `time.Time.MarshalBinary`/`UnmarshalBinary`. -/
inductive GoError where
  | malformed
  | accNotFound
  | alreadyUnlocked
  | storeLocked
  | passwordRequired
  | encKeyNotFound
  | invalidPassword
  | decryptionFailed
  | rootKeyIdNotFound
  | timeNoData
  | timeUnsupportedVersion
  | timeInvalidLength
  | timeBadZoneOffset
  deriving DecidableEq, Repr

instance instDecEqExcept {ε α : Type} [DecidableEq ε] [DecidableEq α] :
    DecidableEq (Except ε α) := fun a b =>
  match a, b with
  | .error e₁, .error e₂ =>
    if h : e₁ = e₂ then .isTrue (by rw [h])
    else .isFalse (by intro hc; injection hc; contradiction)
  | .error _, .ok _ => .isFalse (by intro hc; exact Except.noConfusion hc)
  | .ok _, .error _ => .isFalse (by intro hc; exact Except.noConfusion hc)
  | .ok a₁, .ok a₂ =>
    if h : a₁ = a₂ then .isTrue (by rw [h])
    else .isFalse (by intro hc; injection hc; contradiction)

/-- `binary.LittleEndian.PutUint64`: the eight little-endian bytes of
`n` (reduced mod `2^64`, as the `uint64` cast does). -/
def u64le (n : Nat) : List Nat :=
  [n % 256, n / 256 % 256, n / 256 ^ 2 % 256, n / 256 ^ 3 % 256,
   n / 256 ^ 4 % 256, n / 256 ^ 5 % 256, n / 256 ^ 6 % 256, n / 256 ^ 7 % 256]

/-- `binary.LittleEndian.Uint64` on (the first eight bytes of) `bs`. -/
def u64leDec (bs : List Nat) : Nat :=
  bs.getD 0 0 + bs.getD 1 0 * 256 + bs.getD 2 0 * 256 ^ 2 + bs.getD 3 0 * 256 ^ 3 +
  bs.getD 4 0 * 256 ^ 4 + bs.getD 5 0 * 256 ^ 5 + bs.getD 6 0 * 256 ^ 6 +
  bs.getD 7 0 * 256 ^ 7

/-- Big-endian bytes of an `int64` (two's complement), as written by Go's
`time.Time.MarshalBinary` via `byte(sec >> 56) ... byte(sec)`. -/
def int64be (s : Int) : List Nat :=
  [(s % 2 ^ 64).toNat / 256 ^ 7 % 256, (s % 2 ^ 64).toNat / 256 ^ 6 % 256,
   (s % 2 ^ 64).toNat / 256 ^ 5 % 256, (s % 2 ^ 64).toNat / 256 ^ 4 % 256,
   (s % 2 ^ 64).toNat / 256 ^ 3 % 256, (s % 2 ^ 64).toNat / 256 ^ 2 % 256,
   (s % 2 ^ 64).toNat / 256 % 256, (s % 2 ^ 64).toNat % 256]

/-- The `int64` read back big-endian by `time.Time.UnmarshalBinary`
(`int64(buf[7]) | ... | int64(buf[0])<<56`, two's complement). -/
def int64beDec (bs : List Nat) : Int :=
  let u : Nat := bs.getD 0 0 * 256 ^ 7 + bs.getD 1 0 * 256 ^ 6 + bs.getD 2 0 * 256 ^ 5 +
    bs.getD 3 0 * 256 ^ 4 + bs.getD 4 0 * 256 ^ 3 + bs.getD 5 0 * 256 ^ 2 +
    bs.getD 6 0 * 256 + bs.getD 7 0
  if u < 2 ^ 63 then (u : Int) else (u : Int) - 2 ^ 64

/-- Big-endian bytes of an `int32` (two's complement). -/
def int32be (s : Int) : List Nat :=
  [(s % 2 ^ 32).toNat / 256 ^ 3 % 256, (s % 2 ^ 32).toNat / 256 ^ 2 % 256,
   (s % 2 ^ 32).toNat / 256 % 256, (s % 2 ^ 32).toNat % 256]

/-- The `int32` read back big-endian (two's complement). -/
def int32beDec (bs : List Nat) : Int :=
  let u : Nat := bs.getD 0 0 * 256 ^ 3 + bs.getD 1 0 * 256 ^ 2 + bs.getD 2 0 * 256 +
    bs.getD 3 0
  if u < 2 ^ 31 then (u : Int) else (u : Int) - 2 ^ 32

/-- Big-endian bytes of an `int16` (two's complement). -/
def int16be (s : Int) : List Nat :=
  [(s % 2 ^ 16).toNat / 256 % 256, (s % 2 ^ 16).toNat % 256]

/-- The `int16` read back big-endian (two's complement). -/
def int16beDec (bs : List Nat) : Int :=
  let u : Nat := bs.getD 0 0 * 256 + bs.getD 1 0
  if u < 2 ^ 15 then (u : Int) else (u : Int) - 2 ^ 16

theorem u64le_length (n : Nat) : (u64le n).length = 8 := rfl

theorem int64be_length (s : Int) : (int64be s).length = 8 := rfl

theorem int32be_length (s : Int) : (int32be s).length = 4 := rfl

theorem int16be_length (s : Int) : (int16be s).length = 2 := rfl

theorem u64leDec_u64le (n : Nat) (h : n < 2 ^ 64) : u64leDec (u64le n) = n := by
  simp only [u64le, u64leDec, List.getD_cons_zero, List.getD_cons_succ]
  omega

theorem int64beDec_int64be (s : Int) (h1 : -(2 ^ 63) ≤ s) (h2 : s < 2 ^ 63) :
    int64beDec (int64be s) = s := by
  simp only [int64be, int64beDec, List.getD_cons_zero, List.getD_cons_succ]
  omega

theorem int32beDec_int32be (s : Int) (h1 : -(2 ^ 31) ≤ s) (h2 : s < 2 ^ 31) :
    int32beDec (int32be s) = s := by
  simp only [int32be, int32beDec, List.getD_cons_zero, List.getD_cons_succ]
  omega

theorem int16beDec_int16be (s : Int) (h1 : -(2 ^ 15) ≤ s) (h2 : s < 2 ^ 15) :
    int16beDec (int16be s) = s := by
  simp only [int16be, int16beDec, List.getD_cons_zero, List.getD_cons_succ]
  omega

/-- The observable content of a Go `time.Time` value as far as its
version-1 binary encoding is concerned: wall-clock seconds (the internal
`sec()` field, an `int64`), nanoseconds (an `int32`), and the zone offset
in minutes (an `int16`, where `-1` is the marker Go uses for UTC).
Go locations are richer, but only this offset survives marshaling, and
zones with a fractional-minute offset (which `MarshalBinary` rejects)
are not representable here. -/
structure GoTime where
  sec : Int
  nsec : Int
  offsetMin : Int
  deriving DecidableEq, Repr

/-- The well-formedness every `time.Time` produced by Go satisfies:
`sec` is an `int64`, `nsec` is in `[0, 1e9)`, and the zone offset in
minutes fits an `int16`. -/
def TimeWF (t : GoTime) : Prop :=
  -(2 ^ 63) ≤ t.sec ∧ t.sec < 2 ^ 63 ∧ 0 ≤ t.nsec ∧ t.nsec < 1000000000 ∧
  -32768 ≤ t.offsetMin ∧ t.offsetMin ≤ 32767

instance (t : GoTime) : Decidable (TimeWF t) := by
  unfold TimeWF; infer_instance

/-- The 15-byte version-1 encoding body: version byte `1`, then the
seconds, nanoseconds and zone offset. -/
def timeEnc (t : GoTime) : List Nat :=
  1 :: (int64be t.sec ++ (int32be t.nsec ++ int16be t.offsetMin))

/-- Go `time.Time.MarshalBinary` (version 1, the version in use by the
repository): emits the 15-byte encoding, or an error when the zone
offset does not fit an `int16` (the fractional-minute error case is not
representable in `GoTime`, see above). -/
def timeMarshal (t : GoTime) : Except GoError (List Nat) :=
  if -32768 ≤ t.offsetMin ∧ t.offsetMin ≤ 32767 then .ok (timeEnc t)
  else .error .timeBadZoneOffset

/-- Go `time.Time.UnmarshalBinary`: rejects empty input, a version byte
other than `1`, and any length other than 15; otherwise reads the three
fixed-width fields back.  (Go distinguishes the decoded location UTC /
Local / fixed-zone by the offset value; in `GoTime` only the offset is
observable, with `-1` minutes standing for UTC exactly as in the
encoding.) -/
def timeUnmarshal (data : List Nat) : Except GoError GoTime :=
  if data.length = 0 then .error .timeNoData
  else if data.headD 0 ≠ 1 then .error .timeUnsupportedVersion
  else if data.length ≠ 15 then .error .timeInvalidLength
  else
    let buf := data.drop 1
    let sec := int64beDec (buf.take 8)
    let buf := buf.drop 8
    let nsec := int32beDec (buf.take 4)
    let buf := buf.drop 4
    let offsetMin := int16beDec (buf.take 2)
    .ok ⟨sec, nsec, offsetMin⟩

theorem timeEnc_length (t : GoTime) : (timeEnc t).length = 15 := by
  simp [timeEnc, int64be, int32be, int16be]

theorem timeMarshal_of_wf (t : GoTime) (h : TimeWF t) :
    timeMarshal t = .ok (timeEnc t) := by
  obtain ⟨-, -, -, -, h5, h6⟩ := h
  simp [timeMarshal, h5, h6]

theorem timeUnmarshal_timeEnc (t : GoTime) (h : TimeWF t) :
    timeUnmarshal (timeEnc t) = .ok t := by
  obtain ⟨h1, h2, h3, h4, h5, h6⟩ := h
  have hlen : (timeEnc t).length = 15 := timeEnc_length t
  have hd : (timeEnc t).drop 1 = int64be t.sec ++ (int32be t.nsec ++ int16be t.offsetMin) :=
    rfl
  simp only [timeUnmarshal, hlen, hd]
  rw [List.take_left' (int64be_length t.sec), List.drop_left' (int64be_length t.sec),
    List.take_left' (int32be_length t.nsec), List.drop_left' (int32be_length t.nsec)]
  rw [List.take_of_length_le (le_of_eq (int16be_length t.offsetMin))]
  rw [int64beDec_int64be t.sec h1 h2, int32beDec_int32be t.nsec (by omega) (by omega),
    int16beDec_int16be t.offsetMin (by omega) (by omega)]
  simp [timeEnc]

/-- `OneTimeBalance` of the `AccountType` enum (`iota` value 0). -/
def OneTimeBalance : Nat := 0

/-- `PeriodicBalance` of the `AccountType` enum (`iota` value 1). -/
def PeriodicBalance : Nat := 1

/-- `OffChainBalanceAccount`: ID is a 16-byte array, `Type` a byte
(`AccountType` is `uint8`), the balances are `lnwire.MilliSatoshi`
(`uint64`), the two timestamps are `time.Time`. -/
structure OffChainBalanceAccount where
  ID : List Nat
  «Type» : Nat
  InitialBalance : Nat
  CurrentBalance : Nat
  LastUpdate : GoTime
  ExpirationDate : GoTime
  deriving DecidableEq, Repr

/-- The representation invariants the Go types enforce: the ID array has
exactly 16 bytes, `Type` is a byte, the balances are `uint64`, and the
timestamps are well-formed `time.Time` values. -/
def AccountWF (a : OffChainBalanceAccount) : Prop :=
  a.ID.length = 16 ∧ (∀ b ∈ a.ID, b < 256) ∧ a.«Type» < 256 ∧
  a.InitialBalance < 2 ^ 64 ∧ a.CurrentBalance < 2 ^ 64 ∧
  TimeWF a.LastUpdate ∧ TimeWF a.ExpirationDate

instance (a : OffChainBalanceAccount) : Decidable (AccountWF a) := by
  unfold AccountWF; infer_instance

/-- Go's `copy(dst, src)` into a freshly zeroed window of `n` bytes:
the first `n` bytes of `src`, zero-padded if `src` is shorter.  In the
marshaler the windows are exactly as long as their sources, so this is
the identity there; it is kept to mirror the `copy` calls. -/
def copyFixed (n : Nat) (src : List Nat) : List Nat :=
  src.take n ++ List.replicate (n - src.length) 0

theorem copyFixed_of_length (n : Nat) (src : List Nat) (h : src.length = n) :
    copyFixed n src = src := by
  simp [copyFixed, h, List.take_of_length_le (le_of_eq h)]

/-- `OffChainBalanceAccount.Marshal`: writes into a 63-byte buffer, in
order, the 16-byte ID, the type byte, the two little-endian `uint64`
balances and the two 15-byte binary-marshaled timestamps; a timestamp
marshaling error is propagated. -/
def OffChainBalanceAccount.Marshal (a : OffChainBalanceAccount) :
    Except GoError (List Nat) :=
  match timeMarshal a.LastUpdate with
  | .error e => .error e
  | .ok lastUpdateMarshaled =>
    match timeMarshal a.ExpirationDate with
    | .error e => .error e
    | .ok expirationDateMarshaled =>
      .ok (copyFixed 16 a.ID ++ (a.«Type» % 256 ::
        (u64le a.InitialBalance ++ (u64le a.CurrentBalance ++
          (copyFixed 15 lastUpdateMarshaled ++ copyFixed 15 expirationDateMarshaled)))))

/-- `OffChainBalanceAccount.Unmarshal`: rejects any input whose length is
not exactly 63 bytes with `ErrMalformed`, then reads the fields back by
progressively re-slicing the input exactly as the Go code does; an error
from a timestamp `UnmarshalBinary` is returned as-is (not mapped to
`ErrMalformed`). -/
def OffChainBalanceAccount.Unmarshal (marshaled : List Nat) :
    Except GoError OffChainBalanceAccount :=
  if marshaled.length ≠ 16 + 47 then .error .malformed
  else
    let id := marshaled.take 16
    let m1 := marshaled.drop 16
    let ty := m1.headD 0
    let m2 := m1.drop 1
    let initialBalance := u64leDec (m2.take 8)
    let m3 := m2.drop 8
    let currentBalance := u64leDec (m3.take 8)
    let m4 := m3.drop 8
    match timeUnmarshal (m4.take 15) with
    | .error e => .error e
    | .ok lastUpdate =>
      let m5 := m4.drop 15
      match timeUnmarshal (m5.take 15) with
      | .error e => .error e
      | .ok expirationDate =>
        .ok ⟨id, ty, initialBalance, currentBalance, lastUpdate, expirationDate⟩

/-- Core round-trip fact shared by the claims: for a well-formed account,
`Marshal` succeeds with exactly 63 bytes and `Unmarshal` inverts it. -/
theorem marshal_roundtrip_core (a : OffChainBalanceAccount) (h : AccountWF a) :
    a.Marshal = .ok (a.ID ++ (a.«Type» ::
      (u64le a.InitialBalance ++ (u64le a.CurrentBalance ++
        (timeEnc a.LastUpdate ++ timeEnc a.ExpirationDate))))) ∧
    (a.ID ++ (a.«Type» :: (u64le a.InitialBalance ++ (u64le a.CurrentBalance ++
      (timeEnc a.LastUpdate ++ timeEnc a.ExpirationDate))))).length = 63 ∧
    OffChainBalanceAccount.Unmarshal (a.ID ++ (a.«Type» ::
      (u64le a.InitialBalance ++ (u64le a.CurrentBalance ++
        (timeEnc a.LastUpdate ++ timeEnc a.ExpirationDate))))) = .ok a := by
  obtain ⟨hID, hIDb, hTy, hIB, hCB, hLU, hED⟩ := h
  have hlenc : ∀ bs, bs = a.ID ++ (a.«Type» :: (u64le a.InitialBalance ++
      (u64le a.CurrentBalance ++ (timeEnc a.LastUpdate ++ timeEnc a.ExpirationDate)))) →
      bs.length = 63 := by
    intro bs hbs
    subst hbs
    simp [hID, u64le_length, timeEnc_length, u64le, timeEnc, int64be, int32be, int16be]
  refine ⟨?_, hlenc _ rfl, ?_⟩
  · simp only [OffChainBalanceAccount.Marshal, timeMarshal_of_wf _ hLU,
      timeMarshal_of_wf _ hED]
    rw [copyFixed_of_length _ _ hID, copyFixed_of_length _ _ (timeEnc_length _),
      copyFixed_of_length _ _ (timeEnc_length _), Nat.mod_eq_of_lt hTy]
  · rw [OffChainBalanceAccount.Unmarshal]
    rw [if_neg (by rw [hlenc _ rfl]; omega)]
    rw [List.take_left' hID, List.drop_left' hID]
    simp only [List.headD_cons, List.drop_succ_cons, List.drop_zero]
    rw [List.take_left' (u64le_length _), List.drop_left' (u64le_length _),
      List.take_left' (u64le_length _), List.drop_left' (u64le_length _),
      List.take_left' (timeEnc_length _), List.drop_left' (timeEnc_length _),
      List.take_of_length_le (le_of_eq (timeEnc_length _))]
    rw [u64leDec_u64le _ hIB, u64leDec_u64le _ hCB,
      timeUnmarshal_timeEnc _ hLU, timeUnmarshal_timeEnc _ hED]

/-- A bolt bucket: an association list from byte-string keys to values.
`lookupBytes` is bucket `Get` (`none` for an absent key). -/
def lookupBytes {α : Type} (k : List Nat) : List (List Nat × α) → Option α
  | [] => none
  | (k₀, v) :: rest => if k₀ = k then some v else lookupBytes k rest

/-- Bucket `Put`: replaces the value under an existing key, otherwise
appends the pair. -/
def putBytes {α : Type} (k : List Nat) (v : α) : List (List Nat × α) → List (List Nat × α)
  | [] => [(k, v)]
  | (k₀, v₀) :: rest =>
    if k₀ = k then (k₀, v) :: rest else (k₀, v₀) :: putBytes k v rest

theorem lookupBytes_putBytes_self {α : Type} (k : List Nat) (v : α)
    (l : List (List Nat × α)) : lookupBytes k (putBytes k v l) = some v := by
  induction l with
  | nil => simp [putBytes, lookupBytes]
  | cons hd tl ih =>
    obtain ⟨k₀, v₀⟩ := hd
    by_cases h : k₀ = k
    · simp [putBytes, lookupBytes, h]
    · simp [putBytes, lookupBytes, h, ih]

/-- The `accounts` bucket: account-ID bytes mapped to the stored blob. -/
abbrev AccountStore : Type := List (List Nat × List Nat)

/-- `AccountStorage.NewAccount`.  The randomly generated 16-byte ID and
the `time.Now()` timestamp are passed in as the `id` and `now`
parameters (the code's two sources of nondeterminism); everything else
follows the code: the account is built with type `OneTimeBalance`, both
balances equal to `balance`, marshaled (a marshaling error aborts
without a write) and stored keyed by the ID. -/
def NewAccount (store : AccountStore) (balance : Nat) (expirationDate : GoTime)
    (id : List Nat) (now : GoTime) :
    Except GoError OffChainBalanceAccount × AccountStore :=
  let account : OffChainBalanceAccount :=
    { ID := id, «Type» := OneTimeBalance, InitialBalance := balance,
      CurrentBalance := balance, LastUpdate := now, ExpirationDate := expirationDate }
  match account.Marshal with
  | .error e => (.error e, store)
  | .ok accountBinary => (.ok account, putBytes id accountBinary store)

/-- `AccountStorage.GetAccount`: reads the blob under `id`; an absent key
or a zero-length blob (`len(accountBinary) == 0`) yields
`ErrAccNotFound`; otherwise the blob is unmarshaled. -/
def GetAccount (store : AccountStore) (id : List Nat) :
    Except GoError OffChainBalanceAccount :=
  match lookupBytes id store with
  | none => .error .accNotFound
  | some accountBinary =>
    if accountBinary.length = 0 then .error .accNotFound
    else OffChainBalanceAccount.Unmarshal accountBinary

/-- `AccountStorage.GetAccounts`: folds `Unmarshal` over every stored
value in bucket order; the first decode error aborts the whole
enumeration (the bolt `View` then returns the error and the partial
slice is discarded).  The Go `readFn` skips `nil` values, which bolt
produces only for nested buckets; this bucket never contains nested
buckets, so that branch has no counterpart here. -/
def GetAccounts : AccountStore → Except GoError (List OffChainBalanceAccount)
  | [] => .ok []
  | (_, v) :: rest =>
    match OffChainBalanceAccount.Unmarshal v with
    | .error e => .error e
    | .ok account =>
      match GetAccounts rest with
      | .error e => .error e
      | .ok accounts => .ok (account :: accounts)

/-- Symbolic model of the snacl collaborator's `SecretKey`.  A key is
determined by the password it was derived from and by the random
derivation parameters (salt and cost, collapsed into the `salt` tag).
`Marshal`/`Unmarshal` of a key store and recover exactly these
parameters (the digest in the parameters binds them to the password), so
the marshaled form is modelled as the structure itself. -/
structure SecretKey where
  password : List Nat
  salt : Nat
  deriving DecidableEq, Repr

/-- Symbolic ciphertext: records the key it was produced under and the
plaintext, the two things decryption can observably recover or check. -/
structure Ciphertext where
  key : SecretKey
  plaintext : List Nat
  deriving DecidableEq, Repr

/-- snacl `SecretKey.Encrypt` (total in the model; its only Go failure
mode is the nonce randomness source). -/
def SecretKey.Encrypt (sk : SecretKey) (plaintext : List Nat) : Ciphertext :=
  ⟨sk, plaintext⟩

/-- snacl `SecretKey.Decrypt`: succeeds with the plaintext exactly when
the ciphertext was produced under the same key, and fails otherwise
(wrong key and corrupted ciphertext are indistinguishable). -/
def SecretKey.Decrypt (sk : SecretKey) (ct : Ciphertext) : Except GoError (List Nat) :=
  if ct.key = sk then .ok ct.plaintext else .error .decryptionFailed

/-- snacl `SecretKey.DeriveKey` on unmarshaled parameters: re-derives the
key from the password and the stored salt and checks the stored digest,
failing with `ErrInvalidPassword` when the password does not match the
one the parameters were created from. -/
def SecretKey.DeriveKey (params : SecretKey) (password : List Nat) :
    Except GoError SecretKey :=
  if password = params.password then .ok ⟨password, params.salt⟩
  else .error .invalidPassword

/-- snacl `NewSecretKey`: derives a fresh key from the password; the
fresh random derivation parameters are the `salt` argument. -/
def NewSecretKey (password : List Nat) (salt : Nat) : SecretKey :=
  ⟨password, salt⟩

/-- The `macrootkeys` bucket.  The code stores the marshaled encryption
key parameters under the reserved key `"enckey"` and ciphertexts under
root-key IDs (only `"0"` is ever written); the two kinds of entry are
kept in separate fields since their byte formats never collide. -/
structure RootKeyBucket where
  encKeyDb : Option SecretKey
  rootKeys : List (List Nat × Ciphertext)
  deriving DecidableEq, Repr

/-- `RootKeyStorage`: the persistent bucket plus the in-memory derived
encryption key (`nil`, i.e. `none`, is the locked state). -/
structure RootKeyStorage where
  db : RootKeyBucket
  encKey : Option SecretKey
  deriving DecidableEq, Repr

/-- `defaultRootKeyID = []byte("0")`. -/
def defaultRootKeyID : List Nat := [48]

/-- `RootKeyStorage.CreateUnlock`.  Fails with `ErrAlreadyUnlocked` on an
unlocked store and `ErrPasswordRequired` on a `nil` password (`none`; an
empty-but-non-nil password is `some []` and is not rejected).  If key
parameters are stored, the key is derived from them and the password;
otherwise a fresh key is created (its random parameters are the
`freshSalt` argument), persisted, and held in memory. -/
def RootKeyStorage.CreateUnlock (r : RootKeyStorage) (password : Option (List Nat))
    (freshSalt : Nat) : Except GoError Unit × RootKeyStorage :=
  match r.encKey with
  | some _ => (.error .alreadyUnlocked, r)
  | none =>
    match password with
    | none => (.error .passwordRequired, r)
    | some pw =>
      match r.db.encKeyDb with
      | some dbKey =>
        match dbKey.DeriveKey pw with
        | .error e => (.error e, r)
        | .ok encKey => (.ok (), { r with encKey := some encKey })
      | none =>
        let encKey := NewSecretKey pw freshSalt
        (.ok (), { db := { r.db with encKeyDb := some encKey }, encKey := some encKey })

/-- `RootKeyStorage.ChangePassword`.  Requires the store unlocked
(`ErrStoreLocked`) and both passwords non-`nil` (`ErrPasswordRequired`);
requires both the stored key parameters and the stored default root-key
ciphertext (`ErrEncKeyNotFound`); derives the old key, decrypts the root
key with it, re-encrypts under a key freshly derived from the new
password (random parameters: `freshSalt`), writes ciphertext and new
parameters back, and installs the new key in memory.  Every failure
leaves the transaction rolled back and the in-memory key untouched. -/
def RootKeyStorage.ChangePassword (r : RootKeyStorage)
    (oldPassword newPassword : Option (List Nat)) (freshSalt : Nat) :
    Except GoError Unit × RootKeyStorage :=
  match r.encKey with
  | none => (.error .storeLocked, r)
  | some _ =>
    match oldPassword, newPassword with
    | none, _ => (.error .passwordRequired, r)
    | _, none => (.error .passwordRequired, r)
    | some oldPw, some newPw =>
      match r.db.encKeyDb, lookupBytes defaultRootKeyID r.db.rootKeys with
      | none, _ => (.error .encKeyNotFound, r)
      | _, none => (.error .encKeyNotFound, r)
      | some encKeyDb, some rootKeyDb =>
        match encKeyDb.DeriveKey oldPw with
        | .error e => (.error e, r)
        | .ok encKeyOld =>
          let encKeyNew := NewSecretKey newPw freshSalt
          match encKeyOld.Decrypt rootKeyDb with
          | .error e => (.error e, r)
          | .ok decryptedKey =>
            let encryptedKey := encKeyNew.Encrypt decryptedKey
            (.ok (),
              ⟨⟨some encKeyNew, putBytes defaultRootKeyID encryptedKey r.db.rootKeys⟩,
                some encKeyNew⟩)

/-- `RootKeyStorage.Get`: requires the store unlocked; an absent
ciphertext under `id` is the ad-hoc not-found error; otherwise the
ciphertext is decrypted with the in-memory key.  Read-only: the state is
returned unchanged on every path. -/
def RootKeyStorage.Get (r : RootKeyStorage) (id : List Nat) :
    Except GoError (List Nat) × RootKeyStorage :=
  match r.encKey with
  | none => (.error .storeLocked, r)
  | some encKey =>
    match lookupBytes id r.db.rootKeys with
    | none => (.error .rootKeyIdNotFound, r)
    | some dbKey =>
      match encKey.Decrypt dbKey with
      | .error e => (.error e, r)
      | .ok decKey => (.ok decKey, r)

/-- `RootKeyStorage.RootKey`: requires the store unlocked; decrypts and
returns the stored default-ID root key if present, otherwise generates a
fresh 32-byte root key (the randomness is the `freshKey` argument),
encrypts and stores it, and returns it.  One transaction. -/
def RootKeyStorage.RootKey (r : RootKeyStorage) (freshKey : List Nat) :
    Except GoError (List Nat × List Nat) × RootKeyStorage :=
  match r.encKey with
  | none => (.error .storeLocked, r)
  | some encKey =>
    match lookupBytes defaultRootKeyID r.db.rootKeys with
    | some dbKey =>
      match encKey.Decrypt dbKey with
      | .error e => (.error e, r)
      | .ok decKey => (.ok (decKey, defaultRootKeyID), r)
    | none =>
      let rootKey := freshKey
      (.ok (rootKey, defaultRootKeyID),
        { r with db := { r.db with
            rootKeys := putBytes defaultRootKeyID (encKey.Encrypt rootKey) r.db.rootKeys } })

/-- `RootKeyStorage.GenerateNewRootKey`: requires the store unlocked;
unconditionally overwrites the default-ID ciphertext with a fresh
32-byte root key (the randomness is `freshKey`) encrypted under the
in-memory key. -/
def RootKeyStorage.GenerateNewRootKey (r : RootKeyStorage) (freshKey : List Nat) :
    Except GoError Unit × RootKeyStorage :=
  match r.encKey with
  | none => (.error .storeLocked, r)
  | some encKey =>
    (.ok (), { r with db := { r.db with
        rootKeys := putBytes defaultRootKeyID (encKey.Encrypt freshKey) r.db.rootKeys } })

theorem Decrypt_ok_iff (sk : SecretKey) (ct : Ciphertext) (pt : List Nat) :
    sk.Decrypt ct = .ok pt ↔ ct.key = sk ∧ ct.plaintext = pt := by
  unfold SecretKey.Decrypt
  split <;> simp_all

theorem DeriveKey_ok_iff (params k : SecretKey) (pw : List Nat) :
    params.DeriveKey pw = .ok k ↔ pw = params.password ∧ k = ⟨pw, params.salt⟩ := by
  unfold SecretKey.DeriveKey
  split
  next h => simp [h, eq_comm]
  next h => simp [h]

/-- Inversion of a successful `RootKey` call: the store was unlocked with
some key `k`, the returned ID is the default one, and afterwards the
default-ID slot holds a ciphertext of the returned key under `k` — either
because it was already there (state unchanged) or because the call
created and stored it. -/
theorem RootKey_ok_inv (r rA : RootKeyStorage) (f K idr : List Nat)
    (h : r.RootKey f = (.ok (K, idr), rA)) :
    ∃ k, r.encKey = some k ∧ idr = defaultRootKeyID ∧ rA.encKey = some k ∧
      rA.db.encKeyDb = r.db.encKeyDb ∧
      lookupBytes defaultRootKeyID rA.db.rootKeys = some ⟨k, K⟩ ∧
      (rA = r ∨
       (lookupBytes defaultRootKeyID r.db.rootKeys = none ∧ K = f ∧
        rA.db.rootKeys = putBytes defaultRootKeyID ⟨k, K⟩ r.db.rootKeys)) := by
  unfold RootKeyStorage.RootKey at h
  split at h
  · simp at h
  next k hk =>
    split at h
    next dbKey hl =>
      split at h
      · simp at h
      next decKey hdec =>
        obtain ⟨hkey, hpt⟩ := (Decrypt_ok_iff k dbKey decKey).mp hdec
        obtain ⟨⟨hK, hid⟩, hr⟩ : (decKey = K ∧ defaultRootKeyID = idr) ∧ r = rA := by
          simpa using h
        refine ⟨k, hk, hid.symm, ?_, ?_, ?_, Or.inl hr.symm⟩
        · rw [← hr, hk]
        · rw [← hr]
        · rw [← hr, hl]
          obtain ⟨ck, cp⟩ := dbKey
          simp_all
    next hl =>
      obtain ⟨⟨hK, hid⟩, hr⟩ : (f = K ∧ defaultRootKeyID = idr) ∧ _ = rA := by
        simpa using h
      subst hr hK
      exact ⟨k, hk, hid.symm, hk, rfl, lookupBytes_putBytes_self .., Or.inr ⟨hl, rfl, rfl⟩⟩

/-- Inversion of a successful `ChangePassword` call: the store was
unlocked, the stored parameters match the old password, the default-ID
slot held a ciphertext under the key those parameters derive, and the new
state re-encrypts that same plaintext under the key freshly derived from
the new password, stores that key's parameters, and holds it in
memory. -/
theorem ChangePassword_ok_inv (r rA : RootKeyStorage) (oldPw newPw : List Nat)
    (salt : Nat) (h : r.ChangePassword (some oldPw) (some newPw) salt = (.ok (), rA)) :
    ∃ k params K, r.encKey = some k ∧ r.db.encKeyDb = some params ∧
      params.password = oldPw ∧
      lookupBytes defaultRootKeyID r.db.rootKeys = some ⟨⟨oldPw, params.salt⟩, K⟩ ∧
      rA = ⟨⟨some ⟨newPw, salt⟩,
        putBytes defaultRootKeyID ⟨⟨newPw, salt⟩, K⟩ r.db.rootKeys⟩, some ⟨newPw, salt⟩⟩ := by
  unfold RootKeyStorage.ChangePassword at h
  split at h
  · simp at h
  next k hk =>
    split at h
    · simp at h
    · simp at h
    next oldPw2 newPw2 ho hn =>
      obtain ⟨ho2, hn2⟩ : oldPw = oldPw2 ∧ newPw = newPw2 := by
        constructor <;> [injection ho; injection hn]
      subst ho2 hn2
      split at h
      · simp at h
      · simp at h
      next params rootKeyDb hp hl =>
        split at h
        · simp at h
        next encKeyOld hder =>
          obtain ⟨hpw, hko⟩ := (DeriveKey_ok_iff params encKeyOld oldPw).mp hder
          split at h
          · simp at h
          next decKey hdec =>
            obtain ⟨hkey, hpt⟩ := (Decrypt_ok_iff encKeyOld rootKeyDb decKey).mp hdec
            obtain hr : _ = rA := by simpa using h
            refine ⟨k, params, decKey, hk, hp, hpw.symm, ?_, hr.symm⟩
            rw [hl]
            obtain ⟨ck, cp⟩ := rootKeyDb
            simp_all

/-- Forward computation: on an unlocked store whose default-ID slot holds
a ciphertext produced under the in-memory key, `RootKey` returns its
plaintext and writes nothing. -/
theorem RootKey_of_present (r : RootKeyStorage) (k : SecretKey) (K f : List Nat)
    (hk : r.encKey = some k)
    (hl : lookupBytes defaultRootKeyID r.db.rootKeys = some ⟨k, K⟩) :
    r.RootKey f = (.ok (K, defaultRootKeyID), r) := by
  unfold RootKeyStorage.RootKey
  rw [hk]
  simp [hl, SecretKey.Decrypt]

/-- A concrete 16-byte account ID used by witnesses. -/
def idW : List Nat := [0, 1, 2, 3, 4, 5, 6, 7, 8, 9, 10, 11, 12, 13, 14, 15]

/-- A concrete UTC timestamp used by witnesses. -/
def tW : GoTime := ⟨63600000000, 0, -1⟩

/-- A concrete UTC expiration timestamp used by witnesses. -/
def tExpW : GoTime := ⟨63666666240, 0, -1⟩

/-- A concrete well-formed account used by witnesses. -/
def accW : OffChainBalanceAccount := ⟨idW, 0, 9735, 9735, tW, tExpW⟩

/-- A 63-byte all-zero blob: correct length, but both timestamp
sub-fields carry version byte `0`, so their decoding fails. -/
def badBlob : List Nat := List.replicate 63 0

/-- The all-zero 16-byte ID. -/
def idZ : List Nat := List.replicate 16 0

/-- C1: for every account record with marshalable timestamp fields (any
well-formed record), `Unmarshal` applied to the output of `Marshal`
reconstructs the record field-for-field, and `Marshal` always produces a
byte string of exactly 63 bytes. -/
theorem C1_marshal_unmarshal_roundtrip (a : OffChainBalanceAccount) (h : AccountWF a) :
    ∃ bs, a.Marshal = .ok bs ∧ bs.length = 63 ∧
      OffChainBalanceAccount.Unmarshal bs = .ok a :=
  ⟨_, (marshal_roundtrip_core a h).1, (marshal_roundtrip_core a h).2.1,
    (marshal_roundtrip_core a h).2.2⟩

theorem C1_witness : ∃ bs, accW.Marshal = .ok bs ∧ bs.length = 63 ∧
    OffChainBalanceAccount.Unmarshal bs = .ok accW :=
  C1_marshal_unmarshal_roundtrip accW (by decide)

/-- C2 counterexample: a stored 63-byte blob whose timestamp sub-fields
fail to decode makes `GetAccount` fail with the *time decode* error, not
`ErrMalformed`; and a stored zero-length blob (length ≠ 63) makes it
fail with `ErrAccNotFound`, not `ErrMalformed`. -/
theorem C2_counterexample :
    GetAccount [(idZ, badBlob)] idZ = .error .timeUnsupportedVersion ∧
    GoError.timeUnsupportedVersion ≠ GoError.malformed ∧
    GetAccount [(idZ, ([] : List Nat))] idZ = .error .accNotFound ∧
    GoError.accNotFound ≠ GoError.malformed ∧
    ([] : List Nat).length ≠ 63 := by
  decide

/-- C2 amended: `GetAccount` fails with `ErrMalformed` whenever the
stored blob is non-empty and its length is not 63 (an empty stored blob
instead yields `ErrAccNotFound`); when the length is 63 but either
15-byte timestamp sub-field fails to decode, the decode fails with some
error (the timestamp decode error, not `ErrMalformed`) — it never
silently succeeds on such input. -/
theorem C2_amended :
    (∀ (store : AccountStore) (id bin : List Nat), lookupBytes id store = some bin →
      bin.length ≠ 0 → bin.length ≠ 63 → GetAccount store id = .error .malformed) ∧
    (∀ bin : List Nat, bin.length = 63 →
      ((∃ e, timeUnmarshal ((bin.drop 33).take 15) = .error e) ∨
       (∃ e, timeUnmarshal ((bin.drop 48).take 15) = .error e)) →
      ∃ e, OffChainBalanceAccount.Unmarshal bin = .error e) := by
  constructor
  · intro store id bin hl h0 h63
    simp only [GetAccount, hl]
    rw [if_neg h0]
    unfold OffChainBalanceAccount.Unmarshal
    rw [if_pos (by omega)]
  · intro bin hlen hbad
    simp only [OffChainBalanceAccount.Unmarshal]
    rw [if_neg (by omega)]
    have e1 : ((((bin.drop 16).drop 1).drop 8).drop 8) = bin.drop 33 := by
      simp [List.drop_drop]
    rw [e1]
    have e2 : ((bin.drop 33).drop 15) = bin.drop 48 := by
      simp [List.drop_drop]
    rw [e2]
    rcases h1 : timeUnmarshal ((bin.drop 33).take 15) with e | lu
    · exact ⟨e, rfl⟩
    · rcases h2 : timeUnmarshal ((bin.drop 48).take 15) with e | ed
      · exact ⟨e, rfl⟩
      · exfalso
        rcases hbad with ⟨e, he⟩ | ⟨e, he⟩
        · rw [h1] at he
          exact Except.noConfusion he
        · rw [h2] at he
          exact Except.noConfusion he

theorem C2_witness : GetAccount [(idZ, [0, 0])] idZ = .error .malformed :=
  C2_amended.1 [(idZ, [0, 0])] idZ [0, 0] (by decide) (by decide) (by decide)

/-- C3: on a locked store (no in-memory encryption key), `Get`,
`RootKey`, `ChangePassword` and `GenerateNewRootKey` all fail with
`ErrStoreLocked`, return the state unchanged (no write), and their
outcome is the constant `ErrStoreLocked` whatever the persisted bucket
holds (no read). -/
theorem C3_locked_ops_fail (r : RootKeyStorage) (h : r.encKey = none)
    (id freshKey freshKey2 : List Nat) (oldPw newPw : Option (List Nat)) (salt : Nat) :
    r.Get id = (.error .storeLocked, r) ∧
    r.RootKey freshKey = (.error .storeLocked, r) ∧
    r.ChangePassword oldPw newPw salt = (.error .storeLocked, r) ∧
    r.GenerateNewRootKey freshKey2 = (.error .storeLocked, r) := by
  unfold RootKeyStorage.Get RootKeyStorage.RootKey RootKeyStorage.ChangePassword
    RootKeyStorage.GenerateNewRootKey
  rw [h]
  exact ⟨rfl, rfl, rfl, rfl⟩

theorem C3_witness :
    (RootKeyStorage.mk ⟨none, []⟩ none).Get [48] =
      (.error .storeLocked, ⟨⟨none, []⟩, none⟩) ∧
    (RootKeyStorage.mk ⟨none, []⟩ none).RootKey [7] =
      (.error .storeLocked, ⟨⟨none, []⟩, none⟩) ∧
    (RootKeyStorage.mk ⟨none, []⟩ none).ChangePassword (some [1]) (some [2]) 0 =
      (.error .storeLocked, ⟨⟨none, []⟩, none⟩) ∧
    (RootKeyStorage.mk ⟨none, []⟩ none).GenerateNewRootKey [7] =
      (.error .storeLocked, ⟨⟨none, []⟩, none⟩) :=
  C3_locked_ops_fail ⟨⟨none, []⟩, none⟩ rfl [48] [7] [7] (some [1]) (some [2]) 0

/-- C4 counterexample: `CreateUnlock` with an empty-but-non-`nil`
password on a fresh locked store *succeeds* (it does not fail with
`ErrPasswordRequired`), `ChangePassword` with empty-but-non-`nil`
passwords likewise succeeds, and a `nil`-password `CreateUnlock` on an
already-unlocked store fails with `ErrAlreadyUnlocked`, not
`ErrPasswordRequired`. -/
theorem C4_counterexample :
    ((RootKeyStorage.mk ⟨none, []⟩ none).CreateUnlock (some []) 0).1 = .ok () ∧
    ((RootKeyStorage.mk ⟨none, []⟩ none).CreateUnlock (some []) 0).1 ≠
      .error .passwordRequired ∧
    ((RootKeyStorage.mk ⟨some ⟨[], 0⟩, [([48], ⟨⟨[], 0⟩, [9]⟩)]⟩
        (some ⟨[], 0⟩)).ChangePassword (some []) (some []) 1).1 = .ok () ∧
    ((RootKeyStorage.mk ⟨none, []⟩ (some ⟨[], 0⟩)).CreateUnlock none 0).1 =
      .error .alreadyUnlocked := by
  decide

/-- C4 amended: the `ErrPasswordRequired` failure happens exactly for an
absent (`nil`) password — empty-but-present passwords are accepted — and
only once the earlier lock-state check passes: `CreateUnlock` on a
locked store with a `nil` password, and `ChangePassword` on an unlocked
store with either password `nil`, fail with `ErrPasswordRequired`
without modifying any state. -/
theorem C4_amended (r : RootKeyStorage) (salt : Nat)
    (oldPw newPw : Option (List Nat)) (k : SecretKey) :
    (r.encKey = none → r.CreateUnlock none salt = (.error .passwordRequired, r)) ∧
    (r.encKey = some k → (oldPw = none ∨ newPw = none) →
      r.ChangePassword oldPw newPw salt = (.error .passwordRequired, r)) := by
  constructor
  · intro h
    unfold RootKeyStorage.CreateUnlock
    rw [h]
  · intro h hor
    rcases hor with ho | hn
    · subst ho
      simp [RootKeyStorage.ChangePassword, h]
    · subst hn
      rcases oldPw with - | opw <;> simp [RootKeyStorage.ChangePassword, h]

theorem C4_witness :
    (RootKeyStorage.mk ⟨none, []⟩ none).CreateUnlock none 0 =
      (.error .passwordRequired, ⟨⟨none, []⟩, none⟩) ∧
    (RootKeyStorage.mk ⟨none, []⟩ (some ⟨[3], 5⟩)).ChangePassword none (some [2]) 0 =
      (.error .passwordRequired, ⟨⟨none, []⟩, some ⟨[3], 5⟩⟩) :=
  ⟨(C4_amended ⟨⟨none, []⟩, none⟩ 0 none (some [2]) ⟨[3], 5⟩).1 rfl,
   (C4_amended ⟨⟨none, []⟩, some ⟨[3], 5⟩⟩ 0 none (some [2]) ⟨[3], 5⟩).2 rfl (Or.inl rfl)⟩

/-- C5: after a successful `ChangePassword old new` on a store whose
`RootKey` call returned `K`, (a) `RootKey` still returns the same bytes
`K` (and writes nothing), (b) a fresh instance over the same persisted
bucket unlocked with the new password succeeds and its `RootKey` returns
`K` again, and (c) unlocking the fresh instance with the old password
(assuming the two passwords differ, as a password *change* does) fails
outright with the invalid-password error — it never returns wrong
plaintext. -/
theorem C5_change_password_preserves_root_key
    (s s0 s1 : RootKeyStorage) (f0 K id0 oldPw newPw : List Nat) (salt : Nat)
    (h1 : s.RootKey f0 = (.ok (K, id0), s0))
    (h2 : s0.ChangePassword (some oldPw) (some newPw) salt = (.ok (), s1)) :
    (∀ f1, s1.RootKey f1 = (.ok (K, defaultRootKeyID), s1)) ∧
    (∀ saltB f2, ∃ rB,
      RootKeyStorage.CreateUnlock ⟨s1.db, none⟩ (some newPw) saltB = (.ok (), rB) ∧
      rB.RootKey f2 = (.ok (K, defaultRootKeyID), rB)) ∧
    (oldPw ≠ newPw → ∀ saltB,
      (RootKeyStorage.CreateUnlock ⟨s1.db, none⟩ (some oldPw) saltB).1 =
        .error .invalidPassword) := by
  obtain ⟨k, hk, -, hk0, -, hl0, -⟩ := RootKey_ok_inv s s0 f0 K id0 h1
  obtain ⟨k2, params, K2, hk0b, hp, hpw, hl0b, hs1⟩ :=
    ChangePassword_ok_inv s0 s1 oldPw newPw salt h2
  rw [hl0] at hl0b
  obtain hKK : K = K2 := by
    injection hl0b with h3
    exact congrArg Ciphertext.plaintext h3
  subst hKK
  subst hs1
  refine ⟨?_, ?_, ?_⟩
  · intro f1
    exact RootKey_of_present _ ⟨newPw, salt⟩ K f1 rfl (lookupBytes_putBytes_self ..)
  · intro saltB f2
    refine ⟨⟨⟨some ⟨newPw, salt⟩,
      putBytes defaultRootKeyID ⟨⟨newPw, salt⟩, K⟩ s0.db.rootKeys⟩, some ⟨newPw, salt⟩⟩,
      ?_, ?_⟩
    · simp [RootKeyStorage.CreateUnlock, SecretKey.DeriveKey, NewSecretKey]
    · exact RootKey_of_present _ ⟨newPw, salt⟩ K f2 rfl (lookupBytes_putBytes_self ..)
  · intro hne saltB
    simp [RootKeyStorage.CreateUnlock, SecretKey.DeriveKey, hne]

/-- A concrete store unlocked with password `[1]` and no stored root key
yet, and the states a `RootKey` call and a `ChangePassword` to password
`[2]` take it through. -/
def sW : RootKeyStorage := ⟨⟨some ⟨[1], 0⟩, []⟩, some ⟨[1], 0⟩⟩

/-- `sW` after its first `RootKey` call generated root key `[9, 9]`. -/
def sW0 : RootKeyStorage := ⟨⟨some ⟨[1], 0⟩, [([48], ⟨⟨[1], 0⟩, [9, 9]⟩)]⟩, some ⟨[1], 0⟩⟩

/-- `sW0` after `ChangePassword [1] [2]` with fresh salt `1`. -/
def sW1 : RootKeyStorage := ⟨⟨some ⟨[2], 1⟩, [([48], ⟨⟨[2], 1⟩, [9, 9]⟩)]⟩, some ⟨[2], 1⟩⟩

theorem C5_witness :
    sW1.RootKey [7] = (.ok ([9, 9], defaultRootKeyID), sW1) ∧
    (RootKeyStorage.CreateUnlock ⟨sW1.db, none⟩ (some [1]) 2).1 =
      .error .invalidPassword :=
  ⟨(C5_change_password_preserves_root_key sW sW0 sW1 [9, 9] [9, 9] defaultRootKeyID
      [1] [2] 1 (by decide) (by decide)).1 [7],
   (C5_change_password_preserves_root_key sW sW0 sW1 [9, 9] [9, 9] defaultRootKeyID
      [1] [2] 1 (by decide) (by decide)).2.2 (by decide) 2⟩

/-- C6: two sequential successful `RootKey` calls on the same unlocked
instance return identical bytes; the second call never writes, and the
first call writes only when no root key existed before (if one existed,
the state is unchanged). -/
theorem C6_rootkey_get_or_create_idempotent
    (r r1 r2 : RootKeyStorage) (f1 f2 K1 K2 id1 id2 : List Nat)
    (h1 : r.RootKey f1 = (.ok (K1, id1), r1))
    (h2 : r1.RootKey f2 = (.ok (K2, id2), r2)) :
    K2 = K1 ∧ r2 = r1 ∧
    (lookupBytes defaultRootKeyID r.db.rootKeys ≠ none → r1 = r) := by
  obtain ⟨k, hk, hid, hk1, -, hl1, hbranch⟩ := RootKey_ok_inv r r1 f1 K1 id1 h1
  have h2b := RootKey_of_present r1 k K1 f2 hk1 hl1
  rw [h2] at h2b
  obtain ⟨⟨hK, -⟩, hr⟩ : (K2 = K1 ∧ id2 = defaultRootKeyID) ∧ r2 = r1 := by
    simpa using h2b
  refine ⟨hK, hr, ?_⟩
  intro hne
  rcases hbranch with he | ⟨hnone, -, -⟩
  · exact he
  · exact absurd hnone hne

theorem C6_witness :
    ([9, 9] : List Nat) = [9, 9] ∧ sW0 = sW0 ∧
    (lookupBytes defaultRootKeyID sW.db.rootKeys ≠ none → sW0 = sW) :=
  C6_rootkey_get_or_create_idempotent sW sW0 sW0 [9, 9] [5] [9, 9] [9, 9]
    defaultRootKeyID defaultRootKeyID (by decide) (by decide)

/-- C7: if any stored record fails to decode, `GetAccounts` returns an
error (and, the result being an error, no accounts at all); if every
record decodes, it returns exactly the decoded records, in order. -/
theorem C7_get_accounts_all_or_nothing (store : AccountStore) :
    ((∃ kv ∈ store, ∃ e, OffChainBalanceAccount.Unmarshal kv.2 = .error e) →
      ∃ e, GetAccounts store = .error e) ∧
    ((∀ kv ∈ store, ∃ a, OffChainBalanceAccount.Unmarshal kv.2 = .ok a) →
      ∃ accounts, GetAccounts store = .ok accounts ∧
        List.Forall₂ (fun kv a => OffChainBalanceAccount.Unmarshal kv.2 = .ok a)
          store accounts) := by
  induction store with
  | nil =>
    constructor
    · rintro ⟨kv, hmem, -⟩
      exact absurd hmem (List.not_mem_nil kv)
    · rintro -
      exact ⟨[], rfl, List.Forall₂.nil⟩
  | cons hd tl ih =>
    obtain ⟨k0, v0⟩ := hd
    constructor
    · rintro ⟨kv, hmem, e, he⟩
      rcases hu : OffChainBalanceAccount.Unmarshal v0 with e0 | a0
      · exact ⟨e0, by simp [GetAccounts, hu]⟩
      · rcases List.mem_cons.mp hmem with heq | hmem2
        · subst heq
          have he2 : OffChainBalanceAccount.Unmarshal v0 = .error e := he
          rw [hu] at he2
          exact Except.noConfusion he2
        · obtain ⟨e1, he1⟩ := ih.1 ⟨kv, hmem2, e, he⟩
          exact ⟨e1, by simp [GetAccounts, hu, he1]⟩
    · intro hall
      obtain ⟨a0, ha0⟩ := hall (k0, v0) (List.mem_cons_self ..)
      have ha0b : OffChainBalanceAccount.Unmarshal v0 = .ok a0 := ha0
      obtain ⟨accs, haccs, hf⟩ := ih.2 (fun kv hkv => hall kv (List.mem_cons_of_mem _ hkv))
      exact ⟨a0 :: accs, by simp [GetAccounts, ha0b, haccs],
        List.Forall₂.cons ha0 hf⟩

theorem C7_witness : ∃ e, GetAccounts [(idZ, badBlob)] = .error e :=
  (C7_get_accounts_all_or_nothing [(idZ, badBlob)]).1
    ⟨(idZ, badBlob), List.mem_cons_self .., .timeUnsupportedVersion, by decide⟩

/-- C8: a successful `NewAccount balance expirationDate` (its generated
16-byte random ID and `time.Now()` value appear as the `id`/`now`
parameters) returns an account with type `OneTimeBalance`,
`CurrentBalance = InitialBalance = balance`, the given expiration date
and the generated ID, and a subsequent `GetAccount` on that ID returns a
record with exactly those values. -/
theorem C8_new_account_roundtrip (store : AccountStore) (balance : Nat)
    (expirationDate : GoTime) (id : List Nat) (now : GoTime)
    (hid : id.length = 16) (hidb : ∀ b ∈ id, b < 256) (hbal : balance < 2 ^ 64)
    (hnow : TimeWF now) (hexp : TimeWF expirationDate) :
    ∃ account store2,
      NewAccount store balance expirationDate id now = (.ok account, store2) ∧
      account.«Type» = OneTimeBalance ∧ account.InitialBalance = balance ∧
      account.CurrentBalance = balance ∧ account.ExpirationDate = expirationDate ∧
      account.LastUpdate = now ∧ account.ID = id ∧ account.ID.length = 16 ∧
      GetAccount store2 id = .ok account := by
  have hwf : AccountWF ⟨id, OneTimeBalance, balance, balance, now, expirationDate⟩ :=
    ⟨hid, hidb, by norm_num [OneTimeBalance], hbal, hbal, hnow, hexp⟩
  obtain ⟨hm, hlen, hu⟩ := marshal_roundtrip_core _ hwf
  have hm2 : OffChainBalanceAccount.Marshal
      ⟨id, OneTimeBalance, balance, balance, now, expirationDate⟩ =
      .ok (id ++ (OneTimeBalance :: (u64le balance ++ (u64le balance ++
        (timeEnc now ++ timeEnc expirationDate))))) := hm
  have hlen2 : (id ++ (OneTimeBalance :: (u64le balance ++ (u64le balance ++
      (timeEnc now ++ timeEnc expirationDate))))).length = 63 := hlen
  have hu2 : OffChainBalanceAccount.Unmarshal (id ++ (OneTimeBalance ::
      (u64le balance ++ (u64le balance ++ (timeEnc now ++ timeEnc expirationDate))))) =
      .ok ⟨id, OneTimeBalance, balance, balance, now, expirationDate⟩ := hu
  refine ⟨⟨id, OneTimeBalance, balance, balance, now, expirationDate⟩,
    putBytes id (id ++ (OneTimeBalance :: (u64le balance ++ (u64le balance ++
      (timeEnc now ++ timeEnc expirationDate))))) store,
    ?_, rfl, rfl, rfl, rfl, rfl, rfl, hid, ?_⟩
  · simp only [NewAccount, hm2]
  · simp only [GetAccount, lookupBytes_putBytes_self]
    rw [if_neg (by rw [hlen2]; omega)]
    exact hu2

theorem C8_witness :
    ∃ account store2,
      NewAccount [] 9735 tExpW idW tW = (.ok account, store2) ∧
      account.«Type» = OneTimeBalance ∧ account.InitialBalance = 9735 ∧
      account.CurrentBalance = 9735 ∧ account.ExpirationDate = tExpW ∧
      account.LastUpdate = tW ∧ account.ID = idW ∧ account.ID.length = 16 ∧
      GetAccount store2 idW = .ok account :=
  C8_new_account_roundtrip [] 9735 tExpW idW tW (by decide) (by decide) (by decide)
    (by decide) (by decide)

/-- C9: `Unmarshal` never rejects a 63-byte blob on account of its type
byte (offset 16): whenever the two timestamp sub-fields decode, it
succeeds and stores the raw byte value — any value, including those
outside `{0 = OneTimeBalance, 1 = PeriodicBalance}` — as the account
type. -/
theorem C9_unmarshal_type_byte_unchecked (m : List Nat) (lu ed : GoTime)
    (hlen : m.length = 63)
    (hlu : timeUnmarshal ((m.drop 33).take 15) = .ok lu)
    (hed : timeUnmarshal ((m.drop 48).take 15) = .ok ed) :
    OffChainBalanceAccount.Unmarshal m = .ok
      ⟨m.take 16, (m.drop 16).headD 0, u64leDec (((m.drop 16).drop 1).take 8),
       u64leDec ((((m.drop 16).drop 1).drop 8).take 8), lu, ed⟩ := by
  simp only [OffChainBalanceAccount.Unmarshal]
  rw [if_neg (by omega)]
  have e1 : ((((m.drop 16).drop 1).drop 8).drop 8) = m.drop 33 := by
    simp [List.drop_drop]
  rw [e1]
  have e2 : ((m.drop 33).drop 15) = m.drop 48 := by
    simp [List.drop_drop]
  rw [e2, hlu, hed]

/-- A 63-byte blob whose type byte is `99`, far outside the enum. -/
def blob99 : List Nat :=
  idZ ++ (99 :: (u64le 0 ++ (u64le 0 ++ (timeEnc ⟨0, 0, -1⟩ ++ timeEnc ⟨0, 0, -1⟩))))

theorem C9_witness :
    OffChainBalanceAccount.Unmarshal blob99 =
      .ok ⟨idZ, 99, 0, 0, ⟨0, 0, -1⟩, ⟨0, 0, -1⟩⟩ :=
  (C9_unmarshal_type_byte_unchecked blob99 ⟨0, 0, -1⟩ ⟨0, 0, -1⟩ (by decide) (by decide)
    (by decide)).trans (by decide)

/-- Helper for C10: any failing `CreateUnlock` returns the state (and so
the in-memory key) unchanged. -/
theorem CreateUnlock_error_state (r : RootKeyStorage) (pw : Option (List Nat))
    (salt : Nat) (e : GoError) (h : (r.CreateUnlock pw salt).1 = .error e) :
    (r.CreateUnlock pw salt).2 = r := by
  rcases hk : r.encKey with - | k
  · rcases pw with - | pw2
    · simp [RootKeyStorage.CreateUnlock, hk]
    · rcases hdb : r.db.encKeyDb with - | dbKey
      · exfalso
        simp [RootKeyStorage.CreateUnlock, hk, hdb] at h
      · rcases hder : dbKey.DeriveKey pw2 with e2 | k2
        · simp [RootKeyStorage.CreateUnlock, hk, hdb, hder]
        · exfalso
          simp [RootKeyStorage.CreateUnlock, hk, hdb, hder] at h
  · simp [RootKeyStorage.CreateUnlock, hk]

/-- Helper for C10: any failing `ChangePassword` returns the state (and
so the in-memory key) unchanged. -/
theorem ChangePassword_error_state (r : RootKeyStorage)
    (oldPw newPw : Option (List Nat)) (salt : Nat) (e : GoError)
    (h : (r.ChangePassword oldPw newPw salt).1 = .error e) :
    (r.ChangePassword oldPw newPw salt).2 = r := by
  rcases hk : r.encKey with - | k
  · simp [RootKeyStorage.ChangePassword, hk]
  · rcases oldPw with - | opw
    · simp [RootKeyStorage.ChangePassword, hk]
    · rcases newPw with - | npw
      · simp [RootKeyStorage.ChangePassword, hk]
      · rcases hdb : r.db.encKeyDb with - | params
        · simp [RootKeyStorage.ChangePassword, hk, hdb]
        · rcases hl : lookupBytes defaultRootKeyID r.db.rootKeys with - | rootKeyDb
          · simp [RootKeyStorage.ChangePassword, hk, hdb, hl]
          · rcases hder : params.DeriveKey opw with e2 | encKeyOld
            · simp [RootKeyStorage.ChangePassword, hk, hdb, hl, hder]
            · rcases hdec : encKeyOld.Decrypt rootKeyDb with e3 | decKey
              · simp [RootKeyStorage.ChangePassword, hk, hdb, hl, hder, hdec]
              · exfalso
                simp [RootKeyStorage.ChangePassword, hk, hdb, hl, hder, hdec] at h

/-- C10: every failing `CreateUnlock` or `ChangePassword` call returns
the store state — in particular the in-memory encryption key — unchanged:
a failed unlock leaves the store locked, a failed password change keeps
the previously derived key, and the operation can be retried. -/
theorem C10_failed_ops_preserve_state (r : RootKeyStorage)
    (pw oldPw newPw : Option (List Nat)) (salt saltB : Nat) (e eB : GoError) :
    ((r.CreateUnlock pw salt).1 = .error e →
      (r.CreateUnlock pw salt).2 = r ∧ ((r.CreateUnlock pw salt).2).encKey = r.encKey) ∧
    ((r.ChangePassword oldPw newPw saltB).1 = .error eB →
      (r.ChangePassword oldPw newPw saltB).2 = r ∧
      ((r.ChangePassword oldPw newPw saltB).2).encKey = r.encKey) := by
  constructor
  · intro h
    have hs := CreateUnlock_error_state r pw salt e h
    exact ⟨hs, by rw [hs]⟩
  · intro h
    have hs := ChangePassword_error_state r oldPw newPw saltB eB h
    exact ⟨hs, by rw [hs]⟩

theorem C10_witness :
    ((RootKeyStorage.mk ⟨none, []⟩ none).CreateUnlock none 0).2 = ⟨⟨none, []⟩, none⟩ ∧
    ((RootKeyStorage.mk ⟨none, []⟩ none).ChangePassword (some [1]) (some [2]) 0).2 =
      ⟨⟨none, []⟩, none⟩ :=
  ⟨((C10_failed_ops_preserve_state ⟨⟨none, []⟩, none⟩ none (some [1]) (some [2]) 0 0
      .passwordRequired .storeLocked).1 (by decide)).1,
   ((C10_failed_ops_preserve_state ⟨⟨none, []⟩, none⟩ none (some [1]) (some [2]) 0 0
      .passwordRequired .storeLocked).2 (by decide)).1⟩

end Lnd
